import Mathlib

/-!
# Verification of the Arabic amount-to-words converter

Shallow embedding of the converter in `src/app/dashboard/page.jsx`
(`underThousand`, `numberToArabicWords`, `formatArabicCurrencyWords`).

JavaScript numbers are modelled by `JSNum`: the non-finite values `NaN`,
`+Infinity`, `-Infinity` plus finite values as exact rationals.  The JS
operations used by the source (`Math.floor`, `Math.round`, `Math.abs`, `%`,
array indexing that yields `undefined` out of bounds, `Array.prototype.join`
rendering `undefined` as the empty string, template literals rendering
`undefined` as the string "undefined", numeric truthiness) are embedded
explicitly.
-/

namespace Cheque

/-- A JavaScript number: `NaN`, the two infinities, or a finite value
(modelled as an exact rational). -/
inductive JSNum where
  | nan : JSNum
  | posInf : JSNum
  | negInf : JSNum
  | fin : ℚ → JSNum
deriving DecidableEq

/-- Truncation toward zero of a rational, as JS `%` uses on its quotient. -/
def ratTrunc (q : ℚ) : ℤ :=
  if 0 ≤ q then ⌊q⌋ else ⌈q⌉

/-- JS remainder `a % b` for finite operands (`b ≠ 0`):
`a - b * trunc(a / b)`, keeping the sign of `a`. -/
def jsMod (a b : ℚ) : ℚ :=
  a - b * (ratTrunc (a / b) : ℚ)

/-- JS array indexing `xs[i]` with a numeric index: the element when `i` is
an in-range nonnegative integer, `undefined` (here `none`) otherwise. -/
def arrGet (xs : List String) (i : ℚ) : Option String :=
  if i.den = 1 ∧ 0 ≤ i.num then xs[i.num.toNat]? else none

/-- A template literal `${x}` renders `undefined` as `"undefined"`. -/
def jsTemplate (o : Option String) : String :=
  o.getD "undefined"

/-- `Array.prototype.join(sep)`: elements joined with `sep` in between. -/
def joinSep (sep : String) : List String → String
  | [] => ""
  | [s] => s
  | s :: rest => s ++ sep ++ joinSep sep rest

/-- `Array.prototype.join` renders `undefined` elements as the empty string
(but still puts the separator next to them). -/
def joinSepOpt (sep : String) (parts : List (Option String)) : String :=
  joinSep sep (parts.map (fun o => o.getD ""))

/-- The `ones` lookup table (indices 0–19) of `numberToArabicWords`. -/
def ones : List String :=
  ["", "واحد", "اثنان", "ثلاثة", "أربعة", "خمسة", "ستة", "سبعة", "ثمانية",
   "تسعة", "عشرة", "أحد عشر", "اثنا عشر", "ثلاثة عشر", "أربعة عشر",
   "خمسة عشر", "ستة عشر", "سبعة عشر", "ثمانية عشر", "تسعة عشر"]

/-- The `tens` lookup table (indices 0–9) of `numberToArabicWords`. -/
def tens : List String :=
  ["", "", "عشرون", "ثلاثون", "أربعون", "خمسون", "ستون", "سبعون", "ثمانون",
   "تسعون"]

/-- The `hundreds` lookup table (indices 0–9) of `numberToArabicWords`. -/
def hundreds : List String :=
  ["", "مائة", "مائتان", "ثلاثمائة", "أربعمائة", "خمسمائة", "ستمائة",
   "سبعمائة", "ثمانمائة", "تسعمائة"]

/-- The inner function `underThousand` of `numberToArabicWords`, embedded
with full JS semantics (rational argument, out-of-bounds lookups giving
`undefined`). -/
def underThousand (num : ℚ) : String :=
  let h : ℤ := ⌊num / 100⌋
  let t : ℚ := jsMod num 100
  let parts : List (Option String) :=
    (if h ≠ 0 then [arrGet hundreds (h : ℚ)] else []) ++
    (if t ≠ 0 then
      [if t < 20 then arrGet ones t
       else
         let ten : ℤ := ⌊t / 10⌋
         let one : ℚ := jsMod t 10
         if one ≠ 0 then
           some (jsTemplate (arrGet ones one) ++ " و " ++
                 jsTemplate (arrGet tens (ten : ℚ)))
         else arrGet tens (ten : ℚ)]
     else [])
  joinSepOpt " و " parts

/-- One scale tier of `numberToArabicWords`: its value and the three noun
forms. -/
structure Scale where
  value : ℚ
  sing : String
  dual : String
  plural : String
deriving DecidableEq

/-- The billion tier of the `scales` array. -/
def billionScale : Scale := ⟨1000000000, "مليار", "ملياران", "مليارات"⟩

/-- The million tier of the `scales` array. -/
def millionScale : Scale := ⟨1000000, "مليون", "مليونان", "ملايين"⟩

/-- The thousand tier of the `scales` array. -/
def thousandScale : Scale := ⟨1000, "ألف", "ألفان", "آلاف"⟩

/-- The `scales` array of `numberToArabicWords`, largest tier first. -/
def scales : List Scale := [billionScale, millionScale, thousandScale]

/-- One iteration of the `for (const {value, sing, dual, plural} of scales)`
loop body of `numberToArabicWords`, acting on the state
`(remainder, words)`. -/
def scaleStep (st : ℚ × List String) (sc : Scale) : ℚ × List String :=
  if sc.value ≤ st.1 then
    let q : ℤ := ⌊st.1 / sc.value⌋
    let r : ℚ := jsMod st.1 sc.value
    let qWords : String := underThousand (q : ℚ)
    let scaleWord : String :=
      if q = 2 then sc.dual
      else if 3 ≤ q ∧ q ≤ 10 then sc.plural
      else sc.sing
    if q = 1 then (r, st.2 ++ [scaleWord])
    else if q = 2 then (r, st.2 ++ [scaleWord])
    else (r, st.2 ++ [qWords ++ " " ++ scaleWord])
  else st

/-- `numberToArabicWords(n)`: empty string for non-finite input, "صفر" for
zero, otherwise the scale loop followed by the sub-thousand remainder,
joined by `" و "`. -/
def numberToArabicWords (n : JSNum) : String :=
  match n with
  | .nan => ""
  | .posInf => ""
  | .negInf => ""
  | .fin q =>
    if q = 0 then "صفر"
    else
      let st := scales.foldl scaleStep (q, ([] : List String))
      let words := if st.1 ≠ 0 then st.2 ++ [underThousand st.1] else st.2
      joinSep " و " words

/-- JS `Math.abs` on a `JSNum`. -/
def jsAbs : JSNum → JSNum
  | .nan => .nan
  | .posInf => .posInf
  | .negInf => .posInf
  | .fin q => .fin |q|

/-- JS unary minus on a `JSNum`. -/
def jsNeg : JSNum → JSNum
  | .nan => .nan
  | .posInf => .negInf
  | .negInf => .posInf
  | .fin q => .fin (-q)

/-- JS `Math.floor` on a `JSNum` (identity on non-finite values). -/
def jsFloor : JSNum → JSNum
  | .nan => .nan
  | .posInf => .posInf
  | .negInf => .negInf
  | .fin q => .fin (⌊q⌋ : ℚ)

/-- JS subtraction on `JSNum` (`∞ - ∞ = NaN`). -/
def jsSub : JSNum → JSNum → JSNum
  | .nan, _ => .nan
  | _, .nan => .nan
  | .posInf, .posInf => .nan
  | .posInf, _ => .posInf
  | .negInf, .negInf => .nan
  | .negInf, _ => .negInf
  | .fin _, .posInf => .negInf
  | .fin _, .negInf => .posInf
  | .fin a, .fin b => .fin (a - b)

/-- JS multiplication of a `JSNum` by a finite constant. -/
def jsMulC (x : JSNum) (c : ℚ) : JSNum :=
  match x with
  | .nan => .nan
  | .posInf => if 0 < c then .posInf else if c < 0 then .negInf else .nan
  | .negInf => if 0 < c then .negInf else if c < 0 then .posInf else .nan
  | .fin q => .fin (q * c)

/-- JS `Math.round`: nearest integer, halves toward `+∞`, i.e. `⌊q + 1/2⌋`
on finite values; identity on non-finite values. -/
def jsRound : JSNum → JSNum
  | .nan => .nan
  | .posInf => .posInf
  | .negInf => .negInf
  | .fin q => .fin (⌊q + 1/2⌋ : ℚ)

/-- JS numeric truthiness: `NaN` and `0` are falsy, everything else truthy. -/
def jsTruthy : JSNum → Bool
  | .nan => false
  | .posInf => true
  | .negInf => true
  | .fin q => decide (q ≠ 0)

/-- `formatArabicCurrencyWords(amount, currencyMain, currencySub)`. -/
def formatArabicCurrencyWords (amount : JSNum)
    (currencyMain currencySub : String) : String :=
  let integer : JSNum := jsFloor (jsAbs amount)
  let fraction : JSNum := jsRound (jsMulC (jsSub (jsAbs amount) integer) 100)
  let integerWords : String := numberToArabicWords integer
  let fractionWords : String :=
    if jsTruthy fraction then numberToArabicWords fraction else ""
  let mainUnit := currencyMain
  let subUnit := currencySub
  if jsTruthy fraction then
    integerWords ++ " " ++ mainUnit ++ " و " ++ fractionWords ++ " " ++ subUnit
  else
    integerWords ++ " " ++ mainUnit

/-! ## Natural-number mirrors

For natural-number inputs (the only values the source ever feeds to
`underThousand`, and the integer inputs of `numberToArabicWords`), the JS
arithmetic specialises to `Nat` division and modulus.  The following
mirrors are proved equal to the rational embedding and make the claims
statable over `ℕ`. -/

/-- `underThousand` specialised to a natural-number argument. -/
def underThousandN (n : ℕ) : String :=
  let h := n / 100
  let t := n % 100
  let parts : List String :=
    (if h ≠ 0 then [(hundreds[h]?).getD ""] else []) ++
    (if t ≠ 0 then
      [if t < 20 then (ones[t]?).getD ""
       else if t % 10 ≠ 0 then
         (ones[t % 10]?).getD "" ++ " و " ++ (tens[t / 10]?).getD ""
       else (tens[t / 10]?).getD ""]
     else [])
  joinSep " و " parts

/-- The scale noun chosen for quotient `q`, and the whole segment pushed for
one taken tier, specialised to a natural-number quotient. -/
def segmentN (sc : Scale) (q : ℕ) : String :=
  if q = 1 then sc.sing
  else if q = 2 then sc.dual
  else underThousandN q ++ " " ++
       (if 3 ≤ q ∧ q ≤ 10 then sc.plural else sc.sing)

/-- The list of segments `numberToArabicWords` pushes for a natural-number
input, in the order produced: billion group, million group, thousand group,
sub-thousand remainder. -/
def segmentsN (n : ℕ) : List String :=
  (if n / 1000000000 ≠ 0 then [segmentN billionScale (n / 1000000000)]
   else []) ++
  (if n % 1000000000 / 1000000 ≠ 0 then
     [segmentN millionScale (n % 1000000000 / 1000000)]
   else []) ++
  (if n % 1000000 / 1000 ≠ 0 then [segmentN thousandScale (n % 1000000 / 1000)]
   else []) ++
  (if n % 1000 ≠ 0 then [underThousandN (n % 1000)] else [])

/-! ## Bridge lemmas: rational embedding vs natural-number mirror -/

theorem arrGet_natCast (xs : List String) (k : ℕ) :
    arrGet xs (k : ℚ) = xs[k]? := by
  simp [arrGet]

theorem floor_div_natCast (a b : ℕ) :
    ⌊(a : ℚ) / (b : ℚ)⌋ = ((a / b : ℕ) : ℤ) := by
  exact_mod_cast Rat.floor_natCast_div_natCast a b

theorem jsMod_natCast (a b : ℕ) :
    jsMod (a : ℚ) (b : ℚ) = ((a % b : ℕ) : ℚ) := by
  unfold jsMod ratTrunc
  rw [if_pos (by positivity), floor_div_natCast, Int.cast_natCast]
  have h : ((a % b + b * (a / b) : ℕ) : ℚ) = (a : ℚ) := by
    exact_mod_cast congrArg (Nat.cast : ℕ → ℚ) (Nat.mod_add_div a b)
  push_cast at h
  linarith

theorem ones_get_isSome (k : ℕ) (h : k < 20) : (ones[k]?).isSome := by
  interval_cases k <;> decide

theorem tens_get_isSome (k : ℕ) (h : k < 10) : (tens[k]?).isSome := by
  interval_cases k <;> decide

/-- For natural-number input, the rational embedding of `underThousand`
agrees with its `Nat` mirror. -/
theorem underThousand_natCast (n : ℕ) :
    underThousand (n : ℚ) = underThousandN n := by
  unfold underThousand underThousandN
  dsimp only
  rw [show ((100 : ℚ)) = ((100 : ℕ) : ℚ) by norm_num,
      floor_div_natCast, jsMod_natCast]
  rw [show (((n / 100 : ℕ) : ℤ) : ℚ) = ((n / 100 : ℕ) : ℚ) by norm_cast,
      arrGet_natCast]
  rw [show ((10 : ℚ)) = ((10 : ℕ) : ℚ) by norm_num,
      floor_div_natCast, jsMod_natCast]
  rw [show (((n % 100 / 10 : ℕ) : ℤ) : ℚ) = ((n % 100 / 10 : ℕ) : ℚ) by
        norm_cast,
      arrGet_natCast, arrGet_natCast, arrGet_natCast]
  simp only [joinSepOpt, ne_eq, Nat.cast_eq_zero, Nat.cast_lt_ofNat]
  split_ifs with h1 h2 h3 h4 <;>
    simp_all [jsTemplate, List.map_append]
  · obtain ⟨s, hs⟩ := Option.isSome_iff_exists.mp
      (ones_get_isSome (n % 100 % 10) (by omega))
    obtain ⟨s', hs'⟩ := Option.isSome_iff_exists.mp
      (tens_get_isSome (n % 100 / 10) (by omega))
    rw [hs, hs']
    rfl
  · obtain ⟨s, hs⟩ := Option.isSome_iff_exists.mp
      (ones_get_isSome (n % 100 % 10) (by omega))
    obtain ⟨s', hs'⟩ := Option.isSome_iff_exists.mp
      (tens_get_isSome (n % 100 / 10) (by omega))
    rw [hs, hs']
    rfl

/-- For natural-number state, one scale-loop iteration leaves the remainder
`r % v` and appends the tier's segment exactly when the quotient `r / v` is
nonzero. -/
theorem scaleStep_natCast (r : ℕ) (w : List String) (sc : Scale) (v : ℕ)
    (hv : sc.value = (v : ℚ)) (hv0 : 0 < v) :
    scaleStep ((r : ℚ), w) sc =
      (((r % v : ℕ) : ℚ),
       w ++ (if r / v ≠ 0 then [segmentN sc (r / v)] else [])) := by
  unfold scaleStep segmentN
  dsimp only
  rw [hv, floor_div_natCast, jsMod_natCast,
      show (((r / v : ℕ) : ℤ) : ℚ) = ((r / v : ℕ) : ℚ) by norm_cast,
      underThousand_natCast]
  by_cases h : v ≤ r
  · have hc : ((v : ℚ) ≤ (r : ℚ)) := Nat.cast_le.mpr h
    have hq : r / v ≠ 0 := by
      rw [Nat.div_ne_zero_iff hv0.ne']
      exact h
    rw [if_pos hc, if_pos hq]
    norm_cast
    split_ifs <;> simp_all
  · have hc : ¬ ((v : ℚ) ≤ (r : ℚ)) := fun hle => h (Nat.cast_le.mp hle)
    have hq : ¬ r / v ≠ 0 := by
      have hz : r / v = 0 := Nat.div_eq_of_lt (by omega)
      simp [hz]
    rw [if_neg hc, if_neg hq, Nat.mod_eq_of_lt (by omega)]
    simp

/-- Master bridge: on a natural-number input the full converter produces
"صفر" for zero and otherwise the `" و "`-join of the four segment groups in
descending order. -/
theorem numberToArabicWords_natCast (n : ℕ) :
    numberToArabicWords (.fin (n : ℚ)) =
      if n = 0 then "صفر" else joinSep " و " (segmentsN n) := by
  unfold numberToArabicWords
  by_cases h0 : n = 0
  · subst h0
    simp
  · rw [if_neg h0]
    dsimp only
    rw [if_neg (by exact_mod_cast h0)]
    rw [show scales = [billionScale, millionScale, thousandScale] from rfl,
        List.foldl_cons, List.foldl_cons, List.foldl_cons, List.foldl_nil]
    rw [scaleStep_natCast n [] billionScale 1000000000
          (by simp [billionScale]) (by norm_num),
        scaleStep_natCast _ _ millionScale 1000000
          (by simp [millionScale]) (by norm_num),
        scaleStep_natCast _ _ thousandScale 1000
          (by simp [thousandScale]) (by norm_num)]
    rw [Nat.mod_mod_of_dvd n (by norm_num : (1000000 : ℕ) ∣ 1000000000),
        Nat.mod_mod_of_dvd n (by norm_num : (1000 : ℕ) ∣ 1000000)]
    simp only [ne_eq, Nat.cast_eq_zero, underThousand_natCast]
    unfold segmentsN
    by_cases hr : n % 1000 = 0 <;> simp [hr, List.append_assoc]

/-! ## String-shape lemmas for the join structure -/

theorem string_data_append (a b : String) : (a ++ b).data = a.data ++ b.data :=
  rfl

set_option maxHeartbeats 4000000 in
set_option maxRecDepth 10000 in
/-- Every word `underThousandN` can produce for `1 ≤ q ≤ 999` is nonempty
and neither starts nor ends with a space. -/
theorem underThousandN_ok : ∀ q, q < 1000 → q = 0 ∨
    ((underThousandN q).data ≠ [] ∧
     (underThousandN q).data.head? ≠ some ' ' ∧
     (underThousandN q).data.getLast? ≠ some ' ') := by
  decide

/-- Gluing a quantity word, a space and a scale noun keeps the good-shape
properties. -/
theorem append_word_ok (a w : String)
    (ha : a.data ≠ [] ∧ a.data.head? ≠ some ' ' ∧
          a.data.getLast? ≠ some ' ')
    (hw : w.data ≠ [] ∧ w.data.getLast? ≠ some ' ') :
    (a ++ " " ++ w).data ≠ [] ∧
    (a ++ " " ++ w).data.head? ≠ some ' ' ∧
    (a ++ " " ++ w).data.getLast? ≠ some ' ' := by
  obtain ⟨ha1, ha2, ha3⟩ := ha
  obtain ⟨hw1, hw2⟩ := hw
  refine ⟨?_, ?_, ?_⟩
  · simp [string_data_append, ha1]
  · rw [string_data_append, string_data_append, List.append_assoc,
        List.head?_append_of_ne_nil _ ha1]
    exact ha2
  · rw [string_data_append, List.getLast?_append_of_ne_nil _ hw1]
    exact hw2

/-- Membership in a one-element `if` list. -/
theorem mem_ite_singleton {α : Type} {c : Prop} [Decidable c] {x s : α}
    (h : s ∈ (if c then [x] else [])) : c ∧ s = x := by
  by_cases hc : c
  · rw [if_pos hc] at h
    exact ⟨hc, by simpa using h⟩
  · rw [if_neg hc] at h
    simp at h

/-- Every segment pushed for a taken tier with quotient `1 ≤ q ≤ 999` is
nonempty and neither starts nor ends with a space. -/
theorem segmentN_ok (sc : Scale) (hsc : sc ∈ scales) (q : ℕ) (h1 : 1 ≤ q)
    (h2 : q ≤ 999) :
    (segmentN sc q).data ≠ [] ∧ (segmentN sc q).data.head? ≠ some ' ' ∧
    (segmentN sc q).data.getLast? ≠ some ' ' := by
  have hok : (underThousandN q).data ≠ [] ∧
      (underThousandN q).data.head? ≠ some ' ' ∧
      (underThousandN q).data.getLast? ≠ some ' ' := by
    rcases underThousandN_ok q (by omega) with h | h
    · exact absurd h (by omega)
    · exact h
  have hcase : sc = billionScale ∨ sc = millionScale ∨ sc = thousandScale := by
    simpa [scales] using hsc
  rcases hcase with rfl | rfl | rfl <;>
    · unfold segmentN
      split_ifs <;>
        first
          | decide
          | exact append_word_ok _ _ hok (by decide)

/-- The segment list of a nonzero input is nonempty. -/
theorem segmentsN_ne_nil (n : ℕ) (h1 : 1 ≤ n) : segmentsN n ≠ [] := by
  unfold segmentsN
  intro h
  split_ifs at h <;> simp_all
  omega

/-- All segments of an in-range input are nonempty and neither start nor
end with a space. -/
theorem segmentsN_all_ok (n : ℕ) (h2 : n < 1000000000000) :
    ∀ s ∈ segmentsN n, s.data ≠ [] ∧ s.data.head? ≠ some ' ' ∧
      s.data.getLast? ≠ some ' ' := by
  intro s hs
  unfold segmentsN at hs
  rcases List.mem_append.mp hs with hs' | hrem
  · rcases List.mem_append.mp hs' with hs'' | hth
    · rcases List.mem_append.mp hs'' with hbil | hmil
      · obtain ⟨hc, rfl⟩ := mem_ite_singleton hbil
        exact segmentN_ok billionScale (by simp [scales]) _ (by omega)
          (by omega)
      · obtain ⟨hc, rfl⟩ := mem_ite_singleton hmil
        exact segmentN_ok millionScale (by simp [scales]) _ (by omega)
          (by omega)
    · obtain ⟨hc, rfl⟩ := mem_ite_singleton hth
      exact segmentN_ok thousandScale (by simp [scales]) _ (by omega)
        (by omega)
  · obtain ⟨hc, rfl⟩ := mem_ite_singleton hrem
    rcases underThousandN_ok (n % 1000) (by omega) with h | h
    · exact absurd h (by omega)
    · exact h

/-- The head character of a join whose first element is nonempty. -/
theorem joinSep_head_cons (sep : String) (s : String) (l : List String)
    (hs : s.data ≠ []) :
    (joinSep sep (s :: l)).data.head? = s.data.head? := by
  cases l with
  | nil => rfl
  | cons b bs =>
    show ((s ++ sep ++ joinSep sep (b :: bs)).data).head? = _
    rw [string_data_append, string_data_append, List.append_assoc]
    exact List.head?_append_of_ne_nil _ hs

/-- The head character of a join of nonempty strings is the head character
of one of them. -/
theorem joinSep_head (sep : String) (l : List String) (hne : l ≠ [])
    (hall : ∀ x ∈ l, x.data ≠ []) :
    ∃ s ∈ l, (joinSep sep l).data.head? = s.data.head? := by
  cases l with
  | nil => exact absurd rfl hne
  | cons s l' =>
    exact ⟨s, List.mem_cons_self s l',
      joinSep_head_cons sep s l' (hall s (List.mem_cons_self s l'))⟩

/-- The last character of a join (by a nonempty separator) of nonempty
strings is the last character of one of them. -/
theorem joinSep_last (sep : String) (hsep : sep.data ≠ []) :
    ∀ (l : List String), l ≠ [] → (∀ x ∈ l, x.data ≠ []) →
      ∃ s ∈ l, (joinSep sep l).data.getLast? = s.data.getLast?
  | [], hne, _ => absurd rfl hne
  | [s], _, _ => ⟨s, List.mem_singleton_self s, rfl⟩
  | s :: b :: bs, _, hall => by
    have hall' : ∀ x ∈ b :: bs, x.data ≠ [] :=
      fun x hx => hall x (List.mem_cons_of_mem s hx)
    obtain ⟨t, htmem, htlast⟩ :=
      joinSep_last sep hsep (b :: bs) (by simp) hall'
    have hJ : (joinSep sep (b :: bs)).data ≠ [] := by
      intro hnil
      have hh := joinSep_head_cons sep b bs (hall' b (List.mem_cons_self b bs))
      rw [hnil] at hh
      obtain ⟨c, cs, hcs⟩ :=
        List.exists_cons_of_ne_nil (hall' b (List.mem_cons_self b bs))
      rw [hcs] at hh
      simp at hh
    refine ⟨t, List.mem_cons_of_mem s htmem, ?_⟩
    show ((s ++ sep ++ joinSep sep (b :: bs)).data).getLast? = _
    rw [string_data_append, List.getLast?_append_of_ne_nil _ hJ]
    exact htlast

/-- A `" و "` join of nonempty, space-free-edged strings has no leading and
no trailing conjunction. -/
theorem joinSep_no_conj (l : List String) (hne : l ≠ [])
    (h : ∀ s ∈ l, s.data ≠ [] ∧ s.data.head? ≠ some ' ' ∧
         s.data.getLast? ≠ some ' ') :
    ¬ (" و ").data <+: (joinSep " و " l).data ∧
    ¬ (" و ").data <:+ (joinSep " و " l).data := by
  have hall : ∀ x ∈ l, x.data ≠ [] := fun x hx => (h x hx).1
  obtain ⟨s, hsmem, hshead⟩ := joinSep_head " و " l hne hall
  obtain ⟨t, htmem, htlast⟩ := joinSep_last " و " (by decide) l hne hall
  constructor
  · intro hp
    obtain ⟨u, hu⟩ := hp
    have hsp : (joinSep " و " l).data.head? = some ' ' := by
      rw [← hu]
      rfl
    rw [hshead] at hsp
    exact (h s hsmem).2.1 hsp
  · intro hp
    obtain ⟨u, hu⟩ := hp
    have hsp : (joinSep " و " l).data.getLast? = some ' ' := by
      rw [← hu, List.getLast?_append_of_ne_nil _ (by decide)]
      rfl
    rw [htlast] at hsp
    exact (h t htmem).2.2 hsp

/-! ## The claims -/

/-- C1: for `0 ≤ n ≤ 999`, `underThousand n` emits the hundreds word for
`n / 100` when that digit is nonzero; then, for `t = n % 100` nonzero, the
single irregular ones/teens word when `t < 20`, otherwise
`"<ones> و <tens>"` when the ones digit is nonzero and the tens word alone
otherwise; the two parts are joined with `" و "`; and `underThousand 0`
is the empty string (both `if`-lists are then empty, so the join is `""`). -/
theorem underThousand_agrees (n : ℕ) (_hn : n ≤ 999) :
    underThousand (n : ℚ) =
      joinSep " و "
        ((if n / 100 ≠ 0 then [(hundreds[n / 100]?).getD ""] else []) ++
         (if n % 100 ≠ 0 then
            [if n % 100 < 20 then (ones[n % 100]?).getD ""
             else if n % 10 ≠ 0 then
               (ones[n % 10]?).getD "" ++ " و " ++
               (tens[n % 100 / 10]?).getD ""
             else (tens[n % 100 / 10]?).getD ""]
          else [])) := by
  rw [underThousand_natCast]
  unfold underThousandN
  dsimp only
  rw [Nat.mod_mod_of_dvd n (by norm_num : (10 : ℕ) ∣ 100)]

/-- C1 witness: the theorem applied at `n = 345`, both sides evaluated. -/
theorem underThousand_agrees_witness :
    underThousand ((345 : ℕ) : ℚ) = "ثلاثمائة و خمسة و أربعون" := by
  rw [underThousand_agrees 345 (by norm_num)]
  with_unfolding_all rfl

/-- C2: for every tier of the `scales` array that is taken
(`remaining ≥ value`), the emitted scale noun is the dual exactly when the
quotient is 2, the plural exactly when it is between 3 and 10, and the
singular otherwise (quotient 1, or 11 and above); for quotient 1 or 2 the
segment is the scale noun alone, with no preceding quantity words. -/
theorem scaleStep_noun_forms (sc : Scale) (_hsc : sc ∈ scales) (r v : ℕ)
    (w : List String) (hv : sc.value = (v : ℚ)) (hv0 : 0 < v)
    (htaken : v ≤ r) :
    scaleStep ((r : ℚ), w) sc =
      (((r % v : ℕ) : ℚ),
       w ++ [if r / v = 1 then sc.sing
             else if r / v = 2 then sc.dual
             else underThousandN (r / v) ++ " " ++
               (if 3 ≤ r / v ∧ r / v ≤ 10 then sc.plural else sc.sing)]) := by
  rw [scaleStep_natCast r w sc v hv hv0,
      if_pos (by rw [Nat.div_ne_zero_iff hv0.ne']; exact htaken)]
  rfl

/-- C2 witness: the thousand tier at remainder 5000 (quotient 5) emits the
plural noun with the quantity word. -/
theorem scaleStep_noun_forms_witness :
    scaleStep (((5000 : ℕ) : ℚ), ([] : List String)) thousandScale =
      (0, ["خمسة آلاف"]) := by
  rw [scaleStep_noun_forms thousandScale (by simp [scales]) 5000 1000 []
        (by simp [thousandScale]) (by norm_num) (by norm_num)]
  with_unfolding_all rfl

/-- C3 counterexample: the claim quantifies over every finite integer
`n ≥ 1`, but at `n = 1,001,000,000,000` the billion quotient 1001 sends
`underThousand` out of its lookup table (`hundreds[10]` is `undefined`,
joined as an empty string), so the output starts with the conjunction
`" و "`. -/
theorem numberToArabicWords_leading_conj :
    numberToArabicWords (.fin (1001000000000 : ℚ)) = " و واحد مليار" ∧
    (" و ").data <+: (" و واحد مليار").data :=
  ⟨by with_unfolding_all rfl, by decide⟩

/-- C3 (amended to `1 ≤ n < 10¹²`, the range in which every taken quotient
stays within `underThousand`'s tables): the converter output is the
`" و "`-join of the billion, million, thousand and remainder segments in
that descending order, with the conjunction between every pair and no
leading or trailing conjunction. -/
theorem numberToArabicWords_descending (n : ℕ) (h1 : 1 ≤ n)
    (h2 : n < 1000000000000) :
    numberToArabicWords (.fin (n : ℚ)) = joinSep " و " (segmentsN n) ∧
    segmentsN n ≠ [] ∧
    ¬ (" و ").data <+: (numberToArabicWords (.fin (n : ℚ))).data ∧
    ¬ (" و ").data <:+ (numberToArabicWords (.fin (n : ℚ))).data := by
  have heq : numberToArabicWords (.fin (n : ℚ)) = joinSep " و " (segmentsN n) := by
    rw [numberToArabicWords_natCast, if_neg (by omega)]
  have hj := joinSep_no_conj (segmentsN n) (segmentsN_ne_nil n h1)
    (segmentsN_all_ok n h2)
  rw [heq]
  exact ⟨rfl, segmentsN_ne_nil n h1, hj.1, hj.2⟩

/-- C3 witness: the amended theorem applied at `n = 1234567`, the join
evaluated. -/
theorem numberToArabicWords_descending_witness :
    numberToArabicWords (.fin ((1234567 : ℕ) : ℚ)) =
      "مليون و مائتان و أربعة و ثلاثون ألف و خمسمائة و سبعة و ستون" := by
  rw [(numberToArabicWords_descending 1234567 (by norm_num) (by norm_num)).1]
  with_unfolding_all rfl

/-- C4: for every finite amount and unit nouns, the formatter computes
`integer = ⌊|amount|⌋` and `fraction = round((|amount| − integer) · 100)`
(JS `Math.round`, i.e. `⌊x + 1/2⌋`); a nonzero fraction yields
`"<integerWords> <main> و <fractionWords> <sub>"`, a zero fraction yields
`"<integerWords> <main>"` with no subunit clause. -/
theorem formatArabicCurrencyWords_split (q : ℚ) (m s : String) :
    formatArabicCurrencyWords (.fin q) m s =
      if ⌊(|q| - (⌊|q|⌋ : ℚ)) * 100 + 1/2⌋ ≠ 0 then
        numberToArabicWords (.fin ((⌊|q|⌋ : ℤ) : ℚ)) ++ " " ++ m ++ " و " ++
        numberToArabicWords
          (.fin ((⌊(|q| - (⌊|q|⌋ : ℚ)) * 100 + 1/2⌋ : ℤ) : ℚ)) ++
        " " ++ s
      else numberToArabicWords (.fin ((⌊|q|⌋ : ℤ) : ℚ)) ++ " " ++ m := by
  unfold formatArabicCurrencyWords jsAbs jsFloor jsSub jsMulC jsRound jsTruthy
  dsimp only
  simp only [decide_eq_true_eq, ne_eq, Int.cast_eq_zero]
  by_cases hf : ⌊(|q| - (⌊|q|⌋ : ℚ)) * 100 + 1/2⌋ = 0
  · simp only [if_neg (not_not_intro hf)]
  · simp only [if_pos hf]

/-- C5: `numberToArabicWords 0` is exactly "صفر". -/
theorem numberToArabicWords_zero : numberToArabicWords (.fin 0) = "صفر" :=
  rfl

/-- C6: every non-finite input (`NaN`, `+∞`, `-∞`) yields the empty string
(and, the embedding being a total function, no exception). -/
theorem numberToArabicWords_nonfinite :
    numberToArabicWords .nan = "" ∧ numberToArabicWords .posInf = "" ∧
    numberToArabicWords .negInf = "" :=
  ⟨rfl, rfl, rfl⟩

/-- C7: at amount `1.999` the fraction rounds up to a full `100` subunits
(`round(0.999 · 100) = 100`), the subunit clause renders the word for 100
("مائة"), and no carry happens: the integer clause still renders
`⌊1.999⌋ = 1` ("واحد"). -/
theorem formatArabicCurrencyWords_no_carry :
    jsFloor (jsAbs (.fin (1999/1000))) = .fin 1 ∧
    jsRound (jsMulC (jsSub (jsAbs (.fin (1999/1000)))
        (jsFloor (jsAbs (.fin (1999/1000))))) 100) = .fin 100 ∧
    formatArabicCurrencyWords (.fin (1999/1000)) "جنيه" "قرش" =
      "واحد جنيه و مائة قرش" :=
  ⟨by with_unfolding_all rfl, by with_unfolding_all rfl,
   by with_unfolding_all rfl⟩

/-- C8: the formatter ignores the sign of the amount: negating the amount
(JS unary minus) never changes the output. -/
theorem formatArabicCurrencyWords_neg (amount : JSNum) (m s : String) :
    formatArabicCurrencyWords (jsNeg amount) m s =
      formatArabicCurrencyWords amount m s := by
  have habs : jsAbs (jsNeg amount) = jsAbs amount := by
    cases amount <;> simp [jsAbs, jsNeg, abs_neg]
  unfold formatArabicCurrencyWords
  rw [habs]

/-- C9: for every integer above 999,999,999 the converter still returns a
(total) string whose first segment is the billion segment built from the
full quotient `n / 10⁹` — excess magnitude folds into the billion group and
no further tier exists. -/
theorem numberToArabicWords_large (n : ℕ) (hn : 999999999 < n) :
    numberToArabicWords (.fin (n : ℚ)) =
      joinSep " و "
        (segmentN billionScale (n / 1000000000) ::
         ((if n % 1000000000 / 1000000 ≠ 0 then
             [segmentN millionScale (n % 1000000000 / 1000000)] else []) ++
          ((if n % 1000000 / 1000 ≠ 0 then
              [segmentN thousandScale (n % 1000000 / 1000)] else []) ++
           (if n % 1000 ≠ 0 then [underThousandN (n % 1000)] else [])))) := by
  rw [numberToArabicWords_natCast, if_neg (by omega)]
  unfold segmentsN
  rw [if_pos (by omega : n / 1000000000 ≠ 0)]
  simp [List.append_assoc]

/-- C9 witness: the theorem applied at `n = 1,000,000,001`, evaluated. -/
theorem numberToArabicWords_large_witness :
    numberToArabicWords (.fin ((1000000001 : ℕ) : ℚ)) = "مليار و واحد" := by
  rw [numberToArabicWords_large 1000000001 (by norm_num)]
  with_unfolding_all rfl

/-- C10: for non-finite amounts the formatter does not return the empty
string: the integer words are empty, the NaN fraction is falsy, and the
result is a space followed by the main unit noun. -/
theorem formatArabicCurrencyWords_nonfinite (m s : String) :
    formatArabicCurrencyWords .nan m s = " " ++ m ∧
    formatArabicCurrencyWords .posInf m s = " " ++ m ∧
    formatArabicCurrencyWords .negInf m s = " " ++ m ∧
    " " ++ m ≠ "" := by
  refine ⟨rfl, rfl, rfl, fun h => ?_⟩
  have hd : (' ' :: m.data) = ([] : List Char) := congrArg String.data h
  simp at hd

end Cheque
